import Mathlib

/-!
Shallow embedding of the Portals NFT monitor (telegram_nft_monitor.py and
config.py) and proofs about its event-ingest pipeline: the duplicate and
price-change classifier, the dispatch scheduler, the rate limiter, the API
fetch retry loop, the chat publisher retry, and the supervisor loop.
-/

namespace NFTMonitor

/-! ### Sale amounts

The source compares sale prices with
`abs(current_price - previous_price) < config.PRICE_CHANGE_THRESHOLD`.
Amounts arrive as decimal strings and are exact small decimals; the
embedding represents each as an explicit fraction `num / den` and performs
the comparison by cross multiplication, which is exact and requires no
normalization. -/

structure Amount where
  num : Int
  den : Nat
deriving DecidableEq

/-- `|x - y| < eps` on fractions with positive denominators. -/
def amountAbsDiffLt (x y eps : Amount) : Bool :=
  ((x.num * (y.den : Int) - y.num * (x.den : Int)).natAbs : Int) * (eps.den : Int)
    < eps.num * ((x.den : Int) * (y.den : Int))

/-! ### Configuration constants (config.py) -/

def MAX_MESSAGES_PER_MINUTE : Nat := 8
def MAX_MESSAGES_PER_HOUR : Nat := 150
def MAX_DAILY_MESSAGES : Nat := 2000
def REQUEST_TIMEOUT : Nat := 15
def RETRY_ATTEMPTS : Nat := 2
def PRICE_CHANGE_THRESHOLD : Amount := ⟨1, 100⟩
def DUPLICATE_MEMORY_HOURS : Int := 24
def MAX_CONSECUTIVE_FAILURES : Nat := 10

/-! ### Data model

An `Action` is one purchase event as ingested from the remote API.  The
source reads the amount field both as the raw JSON string (used inside
the synthesized action id) and through `float(...)` (used for price
comparisons); the embedding carries both forms as separate fields.
`external_number` is carried in its string rendering, which is how every
use site in the source consumes it (f-strings and the substring test). -/

structure Action where
  type : String
  nft_id : String
  name : String
  external_number : String
  amountStr : String
  amount : Amount
  created_at : String
deriving DecidableEq

/-- Entry of `price_history` (update_price_history, lines 253-271). -/
structure PriceRecord where
  price : Amount
  timestamp : String
  action_id : String
  name : String
  external_number : String
  enhanced_key : String
deriving DecidableEq

/-- `price_history` is a Python dict keyed by nft id; an association list
preserving insertion order models it (updates keep position, fresh keys
append). -/
abbrev Hist := List (String × PriceRecord)

def histFind (h : Hist) (k : String) : Option PriceRecord :=
  (List.find? (fun p => p.1 == k) h).map (fun p => p.2)

def histInsert (h : Hist) (k : String) (v : PriceRecord) : Hist :=
  if h.any (fun p => p.1 == k) then
    h.map (fun p => if p.1 == k then (k, v) else p)
  else
    h ++ [(k, v)]

/-- The synthesized action id: the nft id, the created_at stamp and the
raw amount joined with underscores (the f-string at lines 423 and 507). -/
def actionId (a : Action) : String :=
  a.nft_id ++ "_" ++ a.created_at ++ "_" ++ a.amountStr

/-! ### String comparison

Python compares `created_at` strings with `>` directly
(process_new_actions line 466); that is lexicographic comparison of code
points, embedded here on the character lists. -/

def charListLt : List Char → List Char → Bool
  | [], [] => false
  | [], _ :: _ => true
  | _ :: _, [] => false
  | a :: as, b :: bs =>
    if a.toNat < b.toNat then true
    else if b.toNat < a.toNat then false
    else charListLt as bs

/-- Python `a < b` on strings. -/
def strLt (a b : String) : Bool := charListLt a.data b.data

/-- Python `a <= b` on strings (total order: not `b < a`). -/
def strLe (a b : String) : Bool := !strLt b a

/-! ### Timestamp parsing

The source replaces a trailing Z suffix with a zero UTC offset, calls
datetime.fromisoformat, and
then works with differences in seconds.  The embedding parses the fixed
layout `YYYY-MM-DDTHH:MM:SS` with suffix nothing, `Z` or `+00:00` to epoch
seconds; any other shape is a parse failure (`none`), which the source
surfaces as a raised exception at the corresponding call sites. -/

def charDigit (c : Char) : Option Nat :=
  if c.isDigit then some (c.toNat - 48) else none

def digits2 (a b : Char) : Option Nat := do
  let x ← charDigit a
  let y ← charDigit b
  pure (10 * x + y)

def digits4 (a b c d : Char) : Option Nat := do
  let x ← digits2 a b
  let y ← digits2 c d
  pure (100 * x + y)

/-- Days since 1970-01-01 of a civil date (proleptic Gregorian). -/
def daysFromCivil (y m d : Int) : Int :=
  let y' := if m ≤ 2 then y - 1 else y
  let era := (if 0 ≤ y' then y' else y' - 399) / 400
  let yoe := y' - era * 400
  let doy := (153 * (if 2 < m then m - 3 else m + 9) + 2) / 5 + d - 1
  let doe := yoe * 365 + yoe / 4 - yoe / 100 + doy
  era * 146097 + doe - 719468

def parseTs (s : String) : Option Int :=
  let cs := s.data
  if cs.drop 19 = [] ∨ cs.drop 19 = ['Z'] ∨ cs.drop 19 = ['+', '0', '0', ':', '0', '0'] then
    match cs.take 19 with
    | [y1, y2, y3, y4, s1, m1, m2, s2, d1, d2, t1, h1, h2, c1, n1, n2, c2, e1, e2] =>
      if s1 = '-' ∧ s2 = '-' ∧ t1 = 'T' ∧ c1 = ':' ∧ c2 = ':' then do
        let y ← digits4 y1 y2 y3 y4
        let mo ← digits2 m1 m2
        let d ← digits2 d1 d2
        let h ← digits2 h1 h2
        let mi ← digits2 n1 n2
        let se ← digits2 e1 e2
        pure (86400 * daysFromCivil (Int.ofNat y) (Int.ofNat mo) (Int.ofNat d)
          + 3600 * (Int.ofNat h) + 60 * (Int.ofNat mi) + (Int.ofNat se))
      else none
    | _ => none
  else none

/-! ### Substring helpers (Python `startswith` and `in` on strings) -/

def listStartsWith : List Char → List Char → Bool
  | _, [] => true
  | [], _ :: _ => false
  | a :: as, b :: bs => a == b && listStartsWith as bs

def listHasSub : List Char → List Char → Bool
  | [], needle => needle.isEmpty
  | h :: t, needle => listStartsWith (h :: t) needle || listHasSub t needle

/-- Python `needle in hay` for strings. -/
def strHasSub (hay needle : String) : Bool := listHasSub hay.data needle.data

/-! ### Dedup and price tracker (is_duplicate_or_price_change, lines 199-251) -/

/-- The similar-gift scan of lines 229-248: walk the collected
`similar_gifts` in history order and return true at the first record whose
key contains `external_number` as a substring, whose price is within the
threshold, and whose timestamp parses to within 300 seconds; a timestamp
parse failure skips the record (the bare `except: pass`). -/
def similarScan (a : Action) : List (String × PriceRecord) → Bool
  | [] => false
  | (sid, d) :: rest =>
    if strHasSub sid a.external_number ∧ amountAbsDiffLt a.amount d.price PRICE_CHANGE_THRESHOLD then
      match parseTs a.created_at, parseTs d.timestamp with
      | some t1, some t2 =>
        if (t1 - t2).natAbs < 300 then true else similarScan a rest
      | _, _ => similarScan a rest
    else similarScan a rest

/-- is_duplicate_or_price_change.  Returns (is_duplicate, is_price_change).
Note the similar-gift pass filters history entries by whether the stored
dict KEY (the nft id chosen by update_price_history) starts with
`f"{nft_name}_"`, and then tests `external_number in stored_id` on that
same key. -/
def isDuplicateOrPriceChange (hist : Hist) (a : Action) : Bool × Bool :=
  match histFind hist a.nft_id with
  | some prev =>
    if amountAbsDiffLt a.amount prev.price PRICE_CHANGE_THRESHOLD then
      (true, false)
    else
      (false, true)
  | none =>
    let similar := hist.filter (fun p => listStartsWith (p.1).data (a.name ++ "_").data)
    if similarScan a similar then (true, false) else (false, false)

/-- Decision table of the specification (§4.C), written from the spec
words for comparison against `isDuplicateOrPriceChange`: row 3 matches on
the STORED RECORD having the same `name` and the same `external_number`
(structured-field comparison), not on the dict key. -/
def classifySpecTable (hist : Hist) (a : Action) : Bool × Bool :=
  match histFind hist a.nft_id with
  | some prev =>
    if amountAbsDiffLt a.amount prev.price PRICE_CHANGE_THRESHOLD then
      (true, false)
    else
      (false, true)
  | none =>
    if hist.any (fun p =>
        p.2.name == a.name && p.2.external_number == a.external_number
        && amountAbsDiffLt a.amount p.2.price PRICE_CHANGE_THRESHOLD
        && match parseTs a.created_at, parseTs p.2.timestamp with
           | some t1, some t2 => decide ((t1 - t2).natAbs < 300)
           | _, _ => false) then
      (true, false)
    else
      (false, false)

/-- update_price_history: store under the plain nft id; the enhanced key
is computed but only stored as a field of the record. -/
def updatePriceHistory (h : Hist) (a : Action) (aid : String) : Hist :=
  histInsert h a.nft_id
    { price := a.amount
      timestamp := a.created_at
      action_id := aid
      name := a.name
      external_number := a.external_number
      enhanced_key := a.name ++ "_" ++ a.external_number ++ "_" ++ a.nft_id }

/-! ### Rate limiter (check_rate_limits, lines 171-197)

`now` is in epoch seconds and `today` is an abstract day index (the local
calendar date).  The source keeps `message_timestamps` as datetimes and
filters them against one-hour and one-minute windows. -/

structure RateState where
  messageTimestamps : List Int
  dailyMessageCount : Nat
  lastDailyReset : Nat
deriving DecidableEq

def checkRateLimits (now : Int) (today : Nat) (rs : RateState) : Bool × RateState :=
  let rs1 :=
    if today ≠ rs.lastDailyReset then
      { rs with dailyMessageCount := 0, lastDailyReset := today }
    else rs
  let ts := rs1.messageTimestamps.filter (fun t => now - 3600 < t)
  let rs2 := { rs1 with messageTimestamps := ts }
  if MAX_MESSAGES_PER_HOUR ≤ ts.length then (false, rs2)
  else if MAX_MESSAGES_PER_MINUTE ≤ (ts.filter (fun t => now - 60 < t)).length then (false, rs2)
  else (true, rs2)

/-! ### Dispatch scheduler (process_new_actions, lines 411-482, and
send_single_notification, lines 484-511)

The scheduler state is the subset of monitor state that those two methods
read and write.  `sr` gives, per action, the transport outcome of
`send_telegram_message` for it: `true` for a message handle, `false` for
an API error.  A cycle returns the resulting state together with the
actions dispatched to `send_single_notification`, the actions whose send
was actually attempted (not classified duplicate), and the actions whose
send returned a handle. -/

structure MState where
  seen : List String
  hist : Hist
  initialBatchSent : Bool
  lastProcessedTs : Option String
  waiting : Bool
deriving DecidableEq

structure CycleResult where
  state : MState
  dispatched : List Action
  attempted : List Action
  delivered : List Action
deriving DecidableEq

/-- The dedup loop of lines 421-426: walk the purchase actions in order,
drop those whose synthesized id is already in `seen_actions`, and add each
survivor id to `seen_actions` as it is encountered. -/
def filterNew (seen : List String) : List Action → List Action × List String
  | [] => ([], seen)
  | a :: rest =>
    if actionId a ∈ seen then filterNew seen rest
    else
      let r := filterNew (actionId a :: seen) rest
      (a :: r.1, r.2)

/-- Lines 455-457: re-add the ids of the overflow actions (a set add, so
a no-op for ids already present). -/
def markSeen (seen : List String) : List Action → List String
  | [] => seen
  | a :: rest => markSeen (if actionId a ∈ seen then seen else actionId a :: seen) rest

/-- send_single_notification: classify; on duplicate return without
sending; otherwise send (the outcome only affects logging and pinning)
and afterwards unconditionally update the price history. -/
def sendSingleNotification (sr : Action → Bool) (h : Hist) (a : Action) :
    Hist × List Action × List Action :=
  let c := isDuplicateOrPriceChange h a
  if c.1 then (h, [], [])
  else
    (updatePriceHistory h a (actionId a), [a], if sr a then [a] else [])

/-- The per-action loops of lines 445-448 and 474-477. -/
def sendBatch (sr : Action → Bool) (h : Hist) : List Action → Hist × List Action × List Action
  | [] => (h, [], [])
  | a :: rest =>
    let s := sendSingleNotification sr h a
    let r := sendBatch sr s.1 rest
    (r.1, s.2.1 ++ r.2.1, s.2.2 ++ r.2.2)

def purchaseOf (actions : List Action) : List Action :=
  actions.filter (fun a => a.type == "purchase")

/-- Lines 461-469: in steady state keep only actions with a truthy
`created_at` strictly greater (string comparison) than
`last_processed_timestamp`; with no stored timestamp keep everything. -/
def trulyNewOf (lastTs : Option String) (newActions : List Action) : List Action :=
  match lastTs with
  | some lts => newActions.filter (fun a => (a.created_at != "") && strLt lts a.created_at)
  | none => newActions

/-- The survivors of the dedup filter, in input order (the list called
`new_actions` in the source). -/
def newActionsOf (st : MState) (actions : List Action) : List Action :=
  (filterNew st.seen (purchaseOf actions)).1

/-- `seen_actions` as it stands after the dedup filter has inserted the
survivor ids. -/
def seenAfterDedup (st : MState) (actions : List Action) : List String :=
  (filterNew st.seen (purchaseOf actions)).2

def processNewActions (sr : Action → Bool) (st : MState) (actions : List Action) : CycleResult :=
  if purchaseOf actions = [] then ⟨st, [], [], []⟩
  else
    let newActions := newActionsOf st actions
    let seen1 := seenAfterDedup st actions
    if newActions = [] then ⟨{ st with seen := seen1, waiting := true }, [], [], []⟩
    else
      let st1 := { st with seen := seen1, waiting := false }
      if st1.initialBatchSent then
        let trulyNew := trulyNewOf st1.lastProcessedTs newActions
        if trulyNew = [] then ⟨st1, [], [], []⟩
        else
          let b := sendBatch sr st1.hist trulyNew
          ⟨{ st1 with
              hist := b.1
              lastProcessedTs :=
                match trulyNew.head? with
                | some a => some a.created_at
                | none => st1.lastProcessedTs },
            trulyNew, b.2.1, b.2.2⟩
      else
        let batch := newActions.take 5
        let b := sendBatch sr st1.hist batch
        let seen2 := markSeen seen1 (newActions.drop 5)
        ⟨{ st1 with
            seen := seen2
            hist := b.1
            initialBatchSent := true
            lastProcessedTs :=
              match newActions.head? with
              | some a => some a.created_at
              | none => st1.lastProcessedTs },
          batch, b.2.1, b.2.2⟩

/-- A run of successive poll cycles: the monitoring loop feeding each
fetched action list through process_new_actions.  Returns the final state
with the concatenated dispatched and attempted actions. -/
def runCycles (sr : Action → Bool) : MState → List (List Action) → MState × List Action × List Action
  | st, [] => (st, [], [])
  | st, acts :: rest =>
    let r := processNewActions sr st acts
    let t := runCycles sr r.state rest
    (t.1, r.dispatched ++ t.2.1, r.attempted ++ t.2.2)

/-! ### Retention purge and state snapshot (cleanup_old_price_history,
lines 141-169; load_state, lines 98-139; save_state, lines 127-139) -/

/-- cleanup_old_price_history: drop entries older than the retention
cutoff; entries whose timestamp does not parse are also dropped. -/
def cleanupOldPriceHistory (now : Int) (h : Hist) : Hist :=
  h.filter (fun p =>
    match parseTs p.2.timestamp with
    | some t => decide (now - DUPLICATE_MEMORY_HOURS * 3600 ≤ t)
    | none => false)

/-- The purge touches only `price_history` on the monitor state. -/
def cleanupState (now : Int) (st : MState) : MState :=
  { st with hist := cleanupOldPriceHistory now st.hist }

/-- The persisted snapshot blob (the fields the claims concern). -/
structure SavedState where
  seen : List String
  hist : Hist
deriving DecidableEq

def initialMState : MState :=
  { seen := [], hist := [], initialBatchSent := false, lastProcessedTs := none, waiting := false }

/-- load_state on the freshly initialized monitor: replace the empty
seen set and history with the file contents (or keep them empty when no
snapshot exists). -/
def loadState (file : Option SavedState) : MState :=
  match file with
  | some f => { initialMState with seen := f.seen, hist := f.hist }
  | none => initialMState

def saveState (st : MState) : SavedState := ⟨st.seen, st.hist⟩

/-! ### API client (fetch_market_actions, lines 329-373) -/

/-- Outcome of one HTTP attempt: a 200 response with a parsed action
list, another status code, or a raised network error. -/
inductive FetchOutcome where
  | success (actions : List Action)
  | httpStatus (code : Nat)
  | netError
deriving DecidableEq

/-- The per-attempt timeout passed as `aiohttp.ClientTimeout(total=...)`
(line 354), from config REQUEST_TIMEOUT. -/
def fetchAttemptTimeout : Nat := REQUEST_TIMEOUT

/-- The retry loop `for attempt in range(self.retry_attempts)`.  Result is
the returned value (actions or None) and the list of backoff sleeps
performed: `await asyncio.sleep(2 ** attempt)` runs only in the exception
handler and only while `attempt < self.retry_attempts - 1`; a non-200
non-401 status falls through to the next attempt with no sleep; a 401
returns None at once. -/
def fetchGo (R : Nat) (attempt : Nat) : List FetchOutcome → Option (List Action) × List Nat
  | [] => (none, [])
  | o :: rest =>
    if attempt < R then
      match o with
      | .success as => (some as, [])
      | .httpStatus c => if c = 401 then (none, []) else fetchGo R (attempt + 1) rest
      | .netError =>
        let tail := fetchGo R (attempt + 1) rest
        if attempt < R - 1 then (tail.1, 2 ^ attempt :: tail.2) else tail
    else (none, [])

/-- fetch_market_actions; `hasToken` models the `if not self.auth_token`
guard. -/
def fetchMarketActions (hasToken : Bool) (outs : List FetchOutcome) :
    Option (List Action) × List Nat :=
  if hasToken then fetchGo RETRY_ATTEMPTS 0 outs else (none, [])

/-! ### Chat publisher (send_telegram_message, lines 375-392) -/

/-- Transport answer to one send call. -/
inductive TgResp where
  | ok
  | retryAfter (d : Nat)
  | apiError
deriving DecidableEq

/-- send_telegram_message over the sequence of transport answers for the
successive attempts with the same body.  Returns (truthy result, sleeps
performed, number of send attempts).  A TelegramRetryAfter answer sleeps
the indicated duration and recurses on the same message. -/
def sendTelegramMessage : List TgResp → Bool × List Nat × Nat
  | [] => (false, [], 0)
  | .ok :: _ => (true, [], 1)
  | .apiError :: _ => (false, [], 1)
  | .retryAfter d :: rest =>
    let r := sendTelegramMessage rest
    (r.1, d :: r.2.1, r.2.2 + 1)

/-! ### Supervisor loop (monitoring_loop, lines 578-647)

One iteration classified by what happened in it.  The loop hard-codes
`max_consecutive_failures = 3`.  The fetch-failure branch increments the
counter, immediately refreshes the token because `consecutive_failures
>= 1`, and resets the counter to zero. -/

inductive CycleOutcome where
  | tokenFail
  | fetchFail
  | fetchOk
  | exn
deriving DecidableEq

/-- One iteration: new consecutive_failures value and whether the loop
breaks. -/
def loopStep (cf : Nat) : CycleOutcome → Nat × Bool
  | .tokenFail => (cf + 1, decide (3 ≤ cf + 1))
  | .fetchFail => (0, false)
  | .fetchOk => (0, false)
  | .exn => (cf + 1, decide (3 ≤ cf + 1))

/-- Run the loop over a script of iteration outcomes; result is the final
counter and whether the loop terminated by the failure break. -/
def runLoop : Nat → List CycleOutcome → Nat × Bool
  | cf, [] => (cf, false)
  | cf, o :: rest =>
    let s := loopStep cf o
    if s.2 then (s.1, true) else runLoop s.1 rest

/-! ### Order predicates used by the ordering claims -/

/-- The timestamp sequence is non-decreasing (each element at most the
next, Python string order). -/
def tsSortedNonDec : List String → Bool
  | [] => true
  | [_] => true
  | a :: b :: r => strLe a b && tsSortedNonDec (b :: r)

/-! ### Concrete fixtures -/

/-- A purchase event with the given nft id, family name, external number,
raw amount string, amount value and timestamp. -/
def mkAct (id nm ext amt : String) (v : Amount) (ts : String) : Action :=
  ⟨"purchase", id, nm, ext, amt, v, ts⟩

/-- Cold start: the API returns 7 purchases with distinct collectible
ids, newest first. -/
def coldStartActions : List Action :=
  [ mkAct "n1" "G1" "1" "7" ⟨7, 1⟩ "2024-06-01T12:00:00Z"
  , mkAct "n2" "G2" "2" "6" ⟨6, 1⟩ "2024-06-01T11:59:00Z"
  , mkAct "n3" "G3" "3" "5" ⟨5, 1⟩ "2024-06-01T11:58:00Z"
  , mkAct "n4" "G4" "4" "4" ⟨4, 1⟩ "2024-06-01T11:57:00Z"
  , mkAct "n5" "G5" "5" "3" ⟨3, 1⟩ "2024-06-01T11:56:00Z"
  , mkAct "n6" "G6" "6" "2" ⟨2, 1⟩ "2024-06-01T11:55:00Z"
  , mkAct "n7" "G7" "7" "1" ⟨1, 1⟩ "2024-06-01T11:54:00Z" ]

def coldStartResult : CycleResult :=
  processNewActions (fun _ => true) initialMState coldStartActions

/-- A steady-state scheduler state: bootstrap done, boundary timestamp
2024-06-01T12:00:00Z, empty dedup memory. -/
def steadyState0 : MState :=
  { seen := [], hist := [], initialBatchSent := true
    lastProcessedTs := some "2024-06-01T12:00:00Z", waiting := false }

/-- Nine strictly newer purchases arriving in one steady-state cycle,
newest first. -/
def nineActions : List Action :=
  [ mkAct "m1" "H1" "1" "5" ⟨5, 1⟩ "2024-06-01T12:00:39Z"
  , mkAct "m2" "H2" "2" "5" ⟨5, 1⟩ "2024-06-01T12:00:38Z"
  , mkAct "m3" "H3" "3" "5" ⟨5, 1⟩ "2024-06-01T12:00:37Z"
  , mkAct "m4" "H4" "4" "5" ⟨5, 1⟩ "2024-06-01T12:00:36Z"
  , mkAct "m5" "H5" "5" "5" ⟨5, 1⟩ "2024-06-01T12:00:35Z"
  , mkAct "m6" "H6" "6" "5" ⟨5, 1⟩ "2024-06-01T12:00:34Z"
  , mkAct "m7" "H7" "7" "5" ⟨5, 1⟩ "2024-06-01T12:00:33Z"
  , mkAct "m8" "H8" "8" "5" ⟨5, 1⟩ "2024-06-01T12:00:32Z"
  , mkAct "m9" "H9" "9" "5" ⟨5, 1⟩ "2024-06-01T12:00:31Z" ]

def nineResult : CycleResult := processNewActions (fun _ => true) steadyState0 nineActions

/-- Two strictly newer purchases in one steady-state cycle, newest first:
their emission order has strictly decreasing timestamps. -/
def pairFirst : Action := mkAct "p1" "K1" "1" "3" ⟨3, 1⟩ "2024-06-01T12:00:30Z"

def pairSecond : Action := mkAct "p2" "K2" "2" "4" ⟨4, 1⟩ "2024-06-01T12:00:10Z"

def pairActions : List Action := [pairFirst, pairSecond]

def pairResult : CycleResult := processNewActions (fun _ => true) steadyState0 pairActions

/-- The event whose emission stored the C1 history entry: name
"Plush Pepe", external number 42, price 10.0, sold at 12:00:00Z, nft id
"abc123". -/
def storedEvC1 : Action := mkAct "abc123" "Plush Pepe" "42" "10.0" ⟨10, 1⟩ "2024-06-01T12:00:00Z"

/-- The price history after the code itself recorded `storedEvC1`. -/
def histC1 : Hist := updatePriceHistory [] storedEvC1 (actionId storedEvC1)

/-- A near-duplicate reissue of the same gift under a fresh collectible
id: same name, same external number, price 10.001, ninety seconds later. -/
def reissueEvC1 : Action :=
  mkAct "def456" "Plush Pepe" "42" "10.001" ⟨10001, 1000⟩ "2024-06-01T12:01:30Z"

/-! ### Helper lemmas about the dedup filter -/

theorem filterNew_seen_sub (l : List Action) :
    ∀ (seen : List String) (x : String), x ∈ seen → x ∈ (filterNew seen l).2 := by
  induction l with
  | nil => intro seen x hx; simpa [filterNew] using hx
  | cons a t ih =>
    intro seen x hx
    by_cases h : actionId a ∈ seen
    · simpa [filterNew, h] using ih seen x hx
    · simpa [filterNew, h] using ih (actionId a :: seen) x (List.mem_cons_of_mem _ hx)

theorem filterNew_mem_not_seen (l : List Action) :
    ∀ (seen : List String) (a : Action), a ∈ (filterNew seen l).1 → actionId a ∉ seen := by
  induction l with
  | nil => intro seen a ha; simp [filterNew] at ha
  | cons b t ih =>
    intro seen a ha
    by_cases h : actionId b ∈ seen
    · simp only [filterNew, if_pos h] at ha
      exact ih seen a ha
    · simp only [filterNew, if_neg h, List.mem_cons] at ha
      rcases ha with rfl | ha
      · exact h
      · intro hc
        exact ih (actionId b :: seen) a ha (List.mem_cons_of_mem _ hc)

theorem filterNew_mem_seen (l : List Action) :
    ∀ (seen : List String) (a : Action), a ∈ (filterNew seen l).1 →
      actionId a ∈ (filterNew seen l).2 := by
  induction l with
  | nil => intro seen a ha; simp [filterNew] at ha
  | cons b t ih =>
    intro seen a ha
    by_cases h : actionId b ∈ seen
    · simp only [filterNew, if_pos h] at ha ⊢
      exact ih seen a ha
    · simp only [filterNew, if_neg h, List.mem_cons] at ha ⊢
      rcases ha with rfl | ha
      · exact filterNew_seen_sub t _ _ (List.mem_cons_self _ _)
      · exact ih (actionId b :: seen) a ha

theorem filterNew_pairwise (l : List Action) :
    ∀ (seen : List String),
      ((filterNew seen l).1).Pairwise (fun a b => actionId a ≠ actionId b) := by
  induction l with
  | nil => intro seen; simp [filterNew]
  | cons b t ih =>
    intro seen
    by_cases h : actionId b ∈ seen
    · simp only [filterNew, if_pos h]
      exact ih seen
    · simp only [filterNew, if_neg h]
      refine List.Pairwise.cons ?_ (ih (actionId b :: seen))
      intro a ha heq
      exact filterNew_mem_not_seen t _ a ha (heq ▸ List.mem_cons_self _ _)

theorem filterNew_sublist (l : List Action) :
    ∀ (seen : List String), ((filterNew seen l).1).Sublist l := by
  induction l with
  | nil => intro seen; simp [filterNew]
  | cons b t ih =>
    intro seen
    by_cases h : actionId b ∈ seen
    · simp only [filterNew, if_pos h]
      exact (ih seen).cons b
    · simp only [filterNew, if_neg h]
      exact (ih (actionId b :: seen)).cons₂ b

theorem markSeen_sub (l : List Action) :
    ∀ (seen : List String) (x : String), x ∈ seen → x ∈ markSeen seen l := by
  induction l with
  | nil => intro seen x hx; simpa [markSeen] using hx
  | cons a t ih =>
    intro seen x hx
    by_cases h : actionId a ∈ seen
    · simpa [markSeen, h] using ih seen x hx
    · simpa [markSeen, h] using ih (actionId a :: seen) x (List.mem_cons_of_mem _ hx)

/-! ### Helper lemmas about the send loop -/

theorem sendBatch_attempted_sublist (sr : Action → Bool) (l : List Action) :
    ∀ (h : Hist), ((sendBatch sr h l).2.1).Sublist l := by
  induction l with
  | nil => intro h; simp [sendBatch]
  | cons a t ih =>
    intro h
    simp only [sendBatch, sendSingleNotification]
    by_cases hc : (isDuplicateOrPriceChange h a).1
    · simp only [if_pos hc]
      exact (ih h).cons a
    · simp only [if_neg hc]
      exact (ih _).cons₂ a

theorem sendBatch_delivered_sr (sr : Action → Bool) (l : List Action) :
    ∀ (h : Hist) (a : Action), a ∈ (sendBatch sr h l).2.2 → sr a = true := by
  induction l with
  | nil => intro h a ha; simp [sendBatch] at ha
  | cons b t ih =>
    intro h a ha
    simp only [sendBatch, sendSingleNotification] at ha
    by_cases hc : (isDuplicateOrPriceChange h b).1
    · simp only [if_pos hc, List.nil_append] at ha
      exact ih _ a ha
    · simp only [if_neg hc, List.mem_append] at ha
      rcases ha with ha | ha
      · by_cases hs : sr b
        · simp only [if_pos hs, List.mem_singleton] at ha
          exact ha ▸ hs
        · simp only [if_neg hs] at ha
          simp at ha
      · exact ih _ a ha

/-! ### Branch characterizations of process_new_actions -/

theorem newActionsOf_purchase_ne (st : MState) (acts : List Action)
    (hN : newActionsOf st acts ≠ []) : purchaseOf acts ≠ [] := by
  intro h0
  exact hN (by simp [newActionsOf, h0, filterNew])

theorem process_no_purchase (sr : Action → Bool) (st : MState) (acts : List Action)
    (hp : purchaseOf acts = []) :
    processNewActions sr st acts = ⟨st, [], [], []⟩ := by
  unfold processNewActions
  rw [if_pos hp]

theorem process_no_new (sr : Action → Bool) (st : MState) (acts : List Action)
    (hp : purchaseOf acts ≠ []) (hN : newActionsOf st acts = []) :
    processNewActions sr st acts =
      ⟨{ st with seen := seenAfterDedup st acts, waiting := true }, [], [], []⟩ := by
  unfold processNewActions
  rw [if_neg hp]
  dsimp only
  rw [if_pos hN]

theorem process_bootstrap (sr : Action → Bool) (st : MState) (acts : List Action)
    (hF : st.initialBatchSent = false) (hN : newActionsOf st acts ≠ []) :
    processNewActions sr st acts =
      ⟨{ seen := markSeen (seenAfterDedup st acts) ((newActionsOf st acts).drop 5)
         hist := (sendBatch sr st.hist ((newActionsOf st acts).take 5)).1
         initialBatchSent := true
         lastProcessedTs :=
           match (newActionsOf st acts).head? with
           | some a => some a.created_at
           | none => st.lastProcessedTs
         waiting := false },
        (newActionsOf st acts).take 5,
        (sendBatch sr st.hist ((newActionsOf st acts).take 5)).2.1,
        (sendBatch sr st.hist ((newActionsOf st acts).take 5)).2.2⟩ := by
  obtain ⟨se, hi, ib, lts, wa⟩ := st
  have hb : ib = false := hF
  subst hb
  unfold processNewActions
  rw [if_neg (newActionsOf_purchase_ne _ acts hN)]
  dsimp only
  rw [if_neg hN]
  simp

theorem process_steady (sr : Action → Bool) (st : MState) (acts : List Action)
    (hT : st.initialBatchSent = true) (hN : newActionsOf st acts ≠ [])
    (hTN : trulyNewOf st.lastProcessedTs (newActionsOf st acts) ≠ []) :
    processNewActions sr st acts =
      ⟨{ seen := seenAfterDedup st acts
         hist := (sendBatch sr st.hist (trulyNewOf st.lastProcessedTs (newActionsOf st acts))).1
         initialBatchSent := true
         lastProcessedTs :=
           match (trulyNewOf st.lastProcessedTs (newActionsOf st acts)).head? with
           | some a => some a.created_at
           | none => st.lastProcessedTs
         waiting := false },
        trulyNewOf st.lastProcessedTs (newActionsOf st acts),
        (sendBatch sr st.hist (trulyNewOf st.lastProcessedTs (newActionsOf st acts))).2.1,
        (sendBatch sr st.hist (trulyNewOf st.lastProcessedTs (newActionsOf st acts))).2.2⟩ := by
  obtain ⟨se, hi, ib, lts, wa⟩ := st
  have hb : ib = true := hT
  subst hb
  unfold processNewActions
  rw [if_neg (newActionsOf_purchase_ne _ acts hN)]
  dsimp only
  rw [if_neg hN, if_neg hTN]
  simp

theorem process_steady_stale (sr : Action → Bool) (st : MState) (acts : List Action)
    (hT : st.initialBatchSent = true) (hN : newActionsOf st acts ≠ [])
    (hTN : trulyNewOf st.lastProcessedTs (newActionsOf st acts) = []) :
    processNewActions sr st acts =
      ⟨{ st with seen := seenAfterDedup st acts, waiting := false }, [], [], []⟩ := by
  obtain ⟨se, hi, ib, lts, wa⟩ := st
  have hb : ib = true := hT
  subst hb
  unfold processNewActions
  rw [if_neg (newActionsOf_purchase_ne _ acts hN)]
  dsimp only
  rw [if_neg hN, if_pos hTN]
  simp

/-! ### Cycle-level invariants -/

theorem process_seen_sub (sr : Action → Bool) (st : MState) (acts : List Action) :
    ∀ x ∈ st.seen, x ∈ (processNewActions sr st acts).state.seen := by
  intro x hx
  by_cases hp : purchaseOf acts = []
  · rw [process_no_purchase sr st acts hp]
    exact hx
  · by_cases hN : newActionsOf st acts = []
    · rw [process_no_new sr st acts hp hN]
      exact filterNew_seen_sub _ _ _ hx
    · cases hT : st.initialBatchSent with
      | false =>
        rw [process_bootstrap sr st acts hT hN]
        exact markSeen_sub _ _ _ (filterNew_seen_sub _ _ _ hx)
      | true =>
        by_cases hTN : trulyNewOf st.lastProcessedTs (newActionsOf st acts) = []
        · rw [process_steady_stale sr st acts hT hN hTN]
          exact filterNew_seen_sub _ _ _ hx
        · rw [process_steady sr st acts hT hN hTN]
          exact filterNew_seen_sub _ _ _ hx

theorem process_dispatched_sub_new (sr : Action → Bool) (st : MState) (acts : List Action) :
    ((processNewActions sr st acts).dispatched).Sublist (newActionsOf st acts) := by
  by_cases hp : purchaseOf acts = []
  · rw [process_no_purchase sr st acts hp]
    exact List.nil_sublist _
  · by_cases hN : newActionsOf st acts = []
    · rw [process_no_new sr st acts hp hN]
      exact List.nil_sublist _
    · cases hT : st.initialBatchSent with
      | false =>
        rw [process_bootstrap sr st acts hT hN]
        exact List.take_sublist _ _
      | true =>
        by_cases hTN : trulyNewOf st.lastProcessedTs (newActionsOf st acts) = []
        · rw [process_steady_stale sr st acts hT hN hTN]
          exact List.nil_sublist _
        · rw [process_steady sr st acts hT hN hTN]
          cases h : st.lastProcessedTs with
          | none => simp [trulyNewOf, h]
          | some t => simp only [trulyNewOf, h]; exact List.filter_sublist _

theorem process_dispatched_not_seen (sr : Action → Bool) (st : MState) (acts : List Action) :
    ∀ a ∈ (processNewActions sr st acts).dispatched, actionId a ∉ st.seen := by
  intro a ha
  exact filterNew_mem_not_seen _ _ _
    ((process_dispatched_sub_new sr st acts).mem ha)

theorem process_dispatched_seen_after (sr : Action → Bool) (st : MState) (acts : List Action) :
    ∀ a ∈ (processNewActions sr st acts).dispatched,
      actionId a ∈ (processNewActions sr st acts).state.seen := by
  intro a ha
  have hmem : a ∈ newActionsOf st acts := (process_dispatched_sub_new sr st acts).mem ha
  have hseen : actionId a ∈ seenAfterDedup st acts := filterNew_mem_seen _ _ _ hmem
  by_cases hp : purchaseOf acts = []
  · rw [process_no_purchase sr st acts hp] at ha
    simp at ha
  · by_cases hN : newActionsOf st acts = []
    · rw [process_no_new sr st acts hp hN] at ha
      simp at ha
    · cases hT : st.initialBatchSent with
      | false =>
        rw [process_bootstrap sr st acts hT hN]
        exact markSeen_sub _ _ _ hseen
      | true =>
        by_cases hTN : trulyNewOf st.lastProcessedTs (newActionsOf st acts) = []
        · rw [process_steady_stale sr st acts hT hN hTN]
          exact hseen
        · rw [process_steady sr st acts hT hN hTN]
          exact hseen

theorem process_attempted_sub_dispatched (sr : Action → Bool) (st : MState) (acts : List Action) :
    ((processNewActions sr st acts).attempted).Sublist ((processNewActions sr st acts).dispatched) := by
  by_cases hp : purchaseOf acts = []
  · rw [process_no_purchase sr st acts hp]
  · by_cases hN : newActionsOf st acts = []
    · rw [process_no_new sr st acts hp hN]
    · cases hT : st.initialBatchSent with
      | false =>
        rw [process_bootstrap sr st acts hT hN]
        exact sendBatch_attempted_sublist _ _ _
      | true =>
        by_cases hTN : trulyNewOf st.lastProcessedTs (newActionsOf st acts) = []
        · rw [process_steady_stale sr st acts hT hN hTN]
        · rw [process_steady sr st acts hT hN hTN]
          exact sendBatch_attempted_sublist _ _ _

theorem process_delivered_sr (sr : Action → Bool) (st : MState) (acts : List Action) :
    ∀ a ∈ (processNewActions sr st acts).delivered, sr a = true := by
  intro a ha
  by_cases hp : purchaseOf acts = []
  · rw [process_no_purchase sr st acts hp] at ha
    simp at ha
  · by_cases hN : newActionsOf st acts = []
    · rw [process_no_new sr st acts hp hN] at ha
      simp at ha
    · cases hT : st.initialBatchSent with
      | false =>
        rw [process_bootstrap sr st acts hT hN] at ha
        exact sendBatch_delivered_sr _ _ _ _ ha
      | true =>
        by_cases hTN : trulyNewOf st.lastProcessedTs (newActionsOf st acts) = []
        · rw [process_steady_stale sr st acts hT hN hTN] at ha
          simp at ha
        · rw [process_steady sr st acts hT hN hTN] at ha
          exact sendBatch_delivered_sr _ _ _ _ ha

/-! ### Run-level invariants -/

theorem run_seen_sub (sr : Action → Bool) (scripts : List (List Action)) :
    ∀ (st : MState) (x : String), x ∈ st.seen → x ∈ (runCycles sr st scripts).1.seen := by
  induction scripts with
  | nil => intro st x hx; exact hx
  | cons acts rest ih =>
    intro st x hx
    exact ih _ x (process_seen_sub sr st acts x hx)

theorem run_not_dispatched_of_seen (sr : Action → Bool) (scripts : List (List Action)) :
    ∀ (st : MState) (a : Action), actionId a ∈ st.seen →
      a ∉ (runCycles sr st scripts).2.1 := by
  induction scripts with
  | nil => intro st a _ h; simp [runCycles] at h
  | cons acts rest ih =>
    intro st a hseen hmem
    simp only [runCycles, List.mem_append] at hmem
    rcases hmem with hmem | hmem
    · exact process_dispatched_not_seen sr st acts a hmem hseen
    · exact ih _ a (process_seen_sub sr st acts _ hseen) hmem

/-! ### Price-history lookup after insertion -/

theorem find_map_update (k : String) (v : PriceRecord) :
    ∀ (h : Hist), h.any (fun p => p.1 == k) = true →
      List.find? (fun p => p.1 == k) (h.map (fun p => if p.1 == k then (k, v) else p))
        = some (k, v) := by
  intro h
  induction h with
  | nil => intro hc; simp at hc
  | cons p t ih =>
    intro hany
    by_cases hp : (p.1 == k) = true
    · simp only [List.map_cons, if_pos hp, List.find?]
      simp
    · have hp2 : (p.1 == k) = false := by
        rw [Bool.not_eq_true] at hp
        exact hp
      simp only [List.any_cons, hp2, Bool.false_or] at hany
      simp only [List.map_cons, if_neg hp]
      simp only [List.find?, hp2]
      exact ih hany

theorem find_append_single (k : String) (v : PriceRecord) :
    ∀ (h : Hist), h.any (fun p => p.1 == k) = false →
      List.find? (fun p => p.1 == k) (h ++ [(k, v)]) = some (k, v) := by
  intro h
  induction h with
  | nil => simp
  | cons p t ih =>
    intro hany
    simp only [List.any_cons, Bool.or_eq_false_iff] at hany
    simp only [List.cons_append, List.find?, hany.1]
    exact ih hany.2

theorem histFind_histInsert (h : Hist) (k : String) (v : PriceRecord) :
    histFind (histInsert h k v) k = some v := by
  unfold histInsert histFind
  by_cases hany : (h.any fun p => p.1 == k) = true
  · rw [if_pos hany, find_map_update k v h hany]
    rfl
  · have hany2 : (h.any fun p => p.1 == k) = false := by
      rw [Bool.not_eq_true] at hany
      exact hany
    rw [if_neg hany, find_append_single k v h hany2]
    rfl

/-! ### Claim theorems -/

/-- C1: the classifier decision table.  Rows 1 and 2 behave as claimed,
but row 3 fails on the code: for a stored record with the same name, the
same external number, a price within epsilon and a timestamp 90 seconds
apart (under a fresh collectible id), the code returns
(duplicate=false, change=false) where the claimed table requires
(duplicate=true, change=false).  The code scans price-history KEYS for the
name underscore pattern, but update_price_history keys entries by the raw
nft id, so the similar-gift row never consults the stored name and
external-number fields. -/
theorem c1_row3_key_mismatch :
    isDuplicateOrPriceChange histC1 reissueEvC1 = (false, false) ∧
    classifySpecTable histC1 reissueEvC1 = (true, false) ∧
    reissueEvC1.name = storedEvC1.name ∧
    reissueEvC1.external_number = storedEvC1.external_number ∧
    amountAbsDiffLt reissueEvC1.amount storedEvC1.amount PRICE_CHANGE_THRESHOLD = true ∧
    parseTs reissueEvC1.created_at = some 1717243290 ∧
    parseTs storedEvC1.created_at = some 1717243200 ∧
    reissueEvC1.nft_id ≠ storedEvC1.nft_id := by
  decide

/-- C2: the rate limits are not enforced on the emission path: a single
steady-state cycle attempts nine sends back to back
(MAX_MESSAGES_PER_MINUTE is eight) without consulting check_rate_limits,
and even the never-invoked check itself passes a state whose daily count
(5000) exceeds MAX_DAILY_MESSAGES (2000). -/
theorem c2_rate_limits_unenforced :
    nineResult.attempted.length = 9 ∧
    nineResult.delivered.length = 9 ∧
    MAX_MESSAGES_PER_MINUTE < nineResult.attempted.length ∧
    (checkRateLimits 1000000 5 ⟨[], 5000, 5⟩).1 = true ∧
    MAX_DAILY_MESSAGES < 5000 := by
  decide

/-- C3: on a bootstrap cycle (initial_batch_sent false) with a non-empty
survivor list N, the scheduler dispatches exactly the first five of N in
input order, the rest of N are in seen_actions afterwards and are not
dispatched, last_processed_timestamp becomes the head timestamp of N, and
the flag is set; and on the concrete cold start with seven fresh
purchases exactly five messages are sent and the remaining two are marked
seen. -/
theorem c3_bootstrap_batch :
    (∀ (sr : Action → Bool) (st : MState) (acts : List Action),
      st.initialBatchSent = false → newActionsOf st acts ≠ [] →
      (processNewActions sr st acts).dispatched = (newActionsOf st acts).take 5 ∧
      (∀ a ∈ (newActionsOf st acts).drop 5,
        actionId a ∈ (processNewActions sr st acts).state.seen ∧
        a ∉ (processNewActions sr st acts).dispatched) ∧
      (processNewActions sr st acts).state.lastProcessedTs
        = ((newActionsOf st acts).head?).map (fun a => a.created_at) ∧
      (processNewActions sr st acts).state.initialBatchSent = true) ∧
    (coldStartResult.dispatched = coldStartActions.take 5 ∧
     coldStartResult.attempted.length = 5 ∧
     coldStartResult.delivered.length = 5 ∧
     (∀ a ∈ coldStartActions.drop 5,
       actionId a ∈ coldStartResult.state.seen ∧ a ∉ coldStartResult.dispatched) ∧
     coldStartResult.state.lastProcessedTs = some "2024-06-01T12:00:00Z" ∧
     coldStartResult.state.initialBatchSent = true) := by
  constructor
  · intro sr st acts hF hN
    have hc := process_bootstrap sr st acts hF hN
    refine ⟨by rw [hc], ?_, ?_, by rw [hc]⟩
    · intro a ha
      constructor
      · rw [hc]
        exact markSeen_sub _ _ _ (filterNew_mem_seen _ _ _ (List.mem_of_mem_drop ha))
      · rw [hc]
        intro hmem
        have hpw : (newActionsOf st acts).Pairwise (fun x y => actionId x ≠ actionId y) :=
          filterNew_pairwise _ _
        have hsplit := List.pairwise_append.mp
          ((List.take_append_drop 5 (newActionsOf st acts)).symm ▸ hpw)
        exact hsplit.2.2 a hmem a ha rfl
    · rw [hc]
      cases hcase : newActionsOf st acts with
      | nil => exact absurd hcase hN
      | cons b r => simp [hcase]
  · decide

/-- C3 witness: the bootstrap theorem applied to the concrete cold
start. -/
theorem c3_bootstrap_batch_witness :
    (processNewActions (fun _ => true) initialMState coldStartActions).dispatched
      = (newActionsOf initialMState coldStartActions).take 5 :=
  (c3_bootstrap_batch.1 (fun _ => true) initialMState coldStartActions rfl (by decide)).1

/-- C4: every dispatched event was not in seen_actions at cycle start and
its id is in seen_actions at cycle end; consequently an action id already
in seen_actions is never dispatched in any run of later cycles. -/
theorem c4_seen_suppresses_forever :
    (∀ (sr : Action → Bool) (st : MState) (acts : List Action) (a : Action),
      a ∈ (processNewActions sr st acts).dispatched →
      actionId a ∉ st.seen ∧ actionId a ∈ (processNewActions sr st acts).state.seen) ∧
    (∀ (sr : Action → Bool) (st : MState) (scripts : List (List Action)) (a : Action),
      actionId a ∈ st.seen → a ∉ (runCycles sr st scripts).2.1) := by
  constructor
  · intro sr st acts a ha
    exact ⟨process_dispatched_not_seen sr st acts a ha,
      process_dispatched_seen_after sr st acts a ha⟩
  · intro sr st scripts a h
    exact run_not_dispatched_of_seen sr scripts st a h

/-- C4 witness: an action whose id is already recorded is not dispatched
when the same payload arrives again. -/
theorem c4_seen_suppresses_forever_witness :
    storedEvC1 ∉ (runCycles (fun _ => true)
      ⟨[actionId storedEvC1], [], true, none, false⟩ [[storedEvC1]]).2.1 :=
  c4_seen_suppresses_forever.2 (fun _ => true)
    ⟨[actionId storedEvC1], [], true, none, false⟩ [[storedEvC1]] storedEvC1 (by decide)

/-- C5 counterexample: a steady-state cycle that receives two strictly
newer events in the API order (newest first) emits them with strictly
DECREASING created_at, so the emission order is not non-decreasing as the
claim states. -/
theorem c5_counterexample_order :
    pairResult.attempted.map (fun a => a.created_at)
      = ["2024-06-01T12:00:30Z", "2024-06-01T12:00:10Z"] ∧
    tsSortedNonDec (pairResult.attempted.map (fun a => a.created_at)) = false ∧
    strLt "2024-06-01T12:00:10Z" "2024-06-01T12:00:30Z" = true := by
  decide

/-- C5 amended: events of one cycle are emitted in input (API return)
order, i.e. the dispatched and attempted lists are order-preserving
sublists of the purchase input (so a newest-first input is emitted with
non-increasing created_at); across cycles last_processed_timestamp never
decreases, and a steady-state cycle with nonempty N-prime sets it to the
head timestamp of N-prime, which is strictly greater than the previous
value (hence equal to their maximum). -/
theorem c5_amended_order :
    (∀ (sr : Action → Bool) (st : MState) (acts : List Action),
      ((processNewActions sr st acts).dispatched).Sublist (purchaseOf acts)) ∧
    (∀ (sr : Action → Bool) (st : MState) (acts : List Action)
        (R : Action → Action → Prop),
      (purchaseOf acts).Pairwise R → ((processNewActions sr st acts).dispatched).Pairwise R) ∧
    (∀ (sr : Action → Bool) (st : MState) (acts : List Action),
      ((processNewActions sr st acts).attempted).Sublist
        ((processNewActions sr st acts).dispatched)) ∧
    (∀ (sr : Action → Bool) (st : MState) (acts : List Action) (t : String),
      st.initialBatchSent = true → st.lastProcessedTs = some t →
      ∃ u, (processNewActions sr st acts).state.lastProcessedTs = some u ∧
        (u = t ∨ strLt t u = true)) ∧
    (∀ (sr : Action → Bool) (st : MState) (acts : List Action) (t : String) (a : Action),
      st.initialBatchSent = true → st.lastProcessedTs = some t →
      (trulyNewOf (some t) (newActionsOf st acts)).head? = some a →
      (processNewActions sr st acts).state.lastProcessedTs = some a.created_at ∧
      strLt t a.created_at = true) := by
  refine ⟨?_, ?_, ?_, ?_, ?_⟩
  · intro sr st acts
    exact (process_dispatched_sub_new sr st acts).trans (filterNew_sublist _ _)
  · intro sr st acts R h
    exact h.sublist ((process_dispatched_sub_new sr st acts).trans (filterNew_sublist _ _))
  · intro sr st acts
    exact process_attempted_sub_dispatched sr st acts
  · intro sr st acts t hT hts
    by_cases hp : purchaseOf acts = []
    · rw [process_no_purchase sr st acts hp]
      exact ⟨t, hts, Or.inl rfl⟩
    · by_cases hN : newActionsOf st acts = []
      · rw [process_no_new sr st acts hp hN]
        exact ⟨t, hts, Or.inl rfl⟩
      · by_cases hTN : trulyNewOf st.lastProcessedTs (newActionsOf st acts) = []
        · rw [process_steady_stale sr st acts hT hN hTN]
          exact ⟨t, hts, Or.inl rfl⟩
        · rw [process_steady sr st acts hT hN hTN]
          cases hcase : trulyNewOf st.lastProcessedTs (newActionsOf st acts) with
          | nil => exact absurd hcase hTN
          | cons b r =>
            refine ⟨b.created_at, by simp [hcase], Or.inr ?_⟩
            have hb : b ∈ trulyNewOf st.lastProcessedTs (newActionsOf st acts) := by
              rw [hcase]
              exact List.mem_cons_self _ _
            rw [hts] at hb
            simp only [trulyNewOf] at hb
            rw [List.mem_filter] at hb
            have h2 := hb.2
            simp only [Bool.and_eq_true] at h2
            exact h2.2
  · intro sr st acts t a hT hts hhead
    rw [← hts] at hhead
    have hTN : trulyNewOf st.lastProcessedTs (newActionsOf st acts) ≠ [] := by
      intro h0
      rw [h0] at hhead
      simp at hhead
    have hN : newActionsOf st acts ≠ [] := by
      intro h0
      rw [h0] at hhead
      rw [hts] at hhead
      simp [trulyNewOf] at hhead
    rw [process_steady sr st acts hT hN hTN]
    have hmem : a ∈ trulyNewOf st.lastProcessedTs (newActionsOf st acts) := by
      cases hcase : trulyNewOf st.lastProcessedTs (newActionsOf st acts) with
      | nil => exact absurd hcase hTN
      | cons b r =>
        rw [hcase] at hhead
        simp only [List.head?] at hhead
        rw [Option.some.injEq] at hhead
        rw [← hhead]
        exact List.mem_cons_self _ _
    constructor
    · simp [hhead]
    · rw [hts] at hmem
      simp only [trulyNewOf] at hmem
      rw [List.mem_filter] at hmem
      have h2 := hmem.2
      simp only [Bool.and_eq_true] at h2
      exact h2.2

/-- C5 witness: the amended theorem applied to the concrete two-event
steady-state cycle. -/
theorem c5_amended_order_witness :
    (processNewActions (fun _ => true) steadyState0 pairActions).state.lastProcessedTs
        = some "2024-06-01T12:00:30Z" ∧
      strLt "2024-06-01T12:00:00Z" "2024-06-01T12:00:30Z" = true :=
  c5_amended_order.2.2.2.2 (fun _ => true) steadyState0 pairActions
    "2024-06-01T12:00:00Z" pairFirst rfl rfl (by decide)

/-- C6 counterexample: two consecutive HTTP 500 responses produce no
backoff sleep at all (the claimed exponential 2-power-attempt backoff only
runs for raised network errors), and the 401 result is the same None as
retry exhaustion, not a distinct token_invalid value. -/
theorem c6_counterexample_backoff :
    fetchMarketActions true [FetchOutcome.httpStatus 500, FetchOutcome.httpStatus 500]
      = (none, []) ∧
    (fetchMarketActions true [FetchOutcome.httpStatus 401]).1
      = (fetchMarketActions true [FetchOutcome.netError, FetchOutcome.netError]).1 := by
  decide

/-- C6 amended: fetch_market_actions makes up to RETRY_ATTEMPTS (2)
attempts, each bounded by the REQUEST_TIMEOUT (15 s) total timeout; a
network error sleeps 2-to-the-attempt seconds before the next attempt
(none after the last), a non-200 non-401 status retries immediately with
no backoff sleep, and HTTP 401 returns None at once without retrying, the
same None that exhaustion returns. -/
theorem c6_amended_retry :
    (∀ (outs : List FetchOutcome) (R attempt : Nat),
      (∀ o ∈ outs, o ≠ FetchOutcome.netError) → (fetchGo R attempt outs).2 = []) ∧
    (∀ (rest : List FetchOutcome) (as : List Action) (R attempt : Nat), attempt < R →
      fetchGo R attempt (FetchOutcome.success as :: rest) = (some as, [])) ∧
    (∀ (rest : List FetchOutcome) (R attempt : Nat), attempt < R →
      fetchGo R attempt (FetchOutcome.httpStatus 401 :: rest) = (none, [])) ∧
    (∀ (rest : List FetchOutcome) (R attempt : Nat), attempt < R → attempt < R - 1 →
      fetchGo R attempt (FetchOutcome.netError :: rest)
        = ((fetchGo R (attempt + 1) rest).1, 2 ^ attempt :: (fetchGo R (attempt + 1) rest).2)) ∧
    fetchMarketActions true [FetchOutcome.netError, FetchOutcome.netError] = (none, [1]) ∧
    fetchAttemptTimeout = 15 ∧ RETRY_ATTEMPTS = 2 ∧
    (∀ outs, fetchMarketActions false outs = (none, [])) := by
  refine ⟨?_, ?_, ?_, ?_, by decide, rfl, rfl, ?_⟩
  · intro outs
    induction outs with
    | nil => intro R attempt h; simp [fetchGo]
    | cons o rest ih =>
      intro R attempt h
      by_cases hR : attempt < R
      · cases o with
        | success as => simp [fetchGo, hR]
        | httpStatus c =>
          by_cases hc : c = 401
          · simp [fetchGo, hR, hc]
          · simp only [fetchGo, if_pos hR, if_neg hc]
            exact ih R (attempt + 1) (fun o ho => h o (List.mem_cons_of_mem _ ho))
        | netError => exact absurd rfl (h _ (List.mem_cons_self _ _))
      · simp [fetchGo, hR]
  · intro rest as R attempt hR
    simp [fetchGo, hR]
  · intro rest R attempt hR
    simp [fetchGo, hR]
  · intro rest R attempt hR hR2
    simp [fetchGo, hR, hR2]
  · intro outs
    simp [fetchMarketActions]

/-- C6 witness: the amended theorem applied to the two-500s attempt
trace. -/
theorem c6_amended_retry_witness :
    (fetchGo 2 0 [FetchOutcome.httpStatus 500, FetchOutcome.httpStatus 500]).2 = [] :=
  c6_amended_retry.1 [FetchOutcome.httpStatus 500, FetchOutcome.httpStatus 500] 2 0 (by decide)

/-- C7: the loop terminates after three consecutive failures, not after
the configured MAX_CONSECUTIVE_FAILURES (10); a cycle whose fetch fails
resets the counter to zero (after refreshing the token) instead of
incrementing it, so fetch failures alone never terminate the loop; a
successful cycle resets the counter. -/
theorem c7_hardcoded_three :
    runLoop 0 [CycleOutcome.tokenFail, CycleOutcome.tokenFail, CycleOutcome.tokenFail]
      = (3, true) ∧
    3 < MAX_CONSECUTIVE_FAILURES ∧
    loopStep 2 CycleOutcome.fetchFail = (0, false) ∧
    loopStep 7 CycleOutcome.fetchOk = (0, false) ∧
    runLoop 0 [CycleOutcome.fetchFail, CycleOutcome.fetchFail, CycleOutcome.fetchFail,
      CycleOutcome.fetchFail] = (0, false) := by
  decide

/-- C8 counterexample: with the transport answering retry_after twice and
then succeeding, the publisher sleeps both indicated durations and makes
three send attempts, i.e. it retries twice, not exactly once. -/
theorem c8_counterexample_retries :
    sendTelegramMessage [TgResp.retryAfter 1, TgResp.retryAfter 2, TgResp.ok]
      = (true, [1, 2], 3) ∧
    (3 : Nat) ≠ 2 := by
  decide

/-- C8 amended: on each retry_after answer the publisher sleeps exactly
the indicated duration and retries the same body again, recursing with no
bound: k leading retry_after answers produce exactly those k sleeps in
order and k extra attempts, and the outcome is decided by the first
non-retry_after answer. -/
theorem c8_amended_unbounded :
    ∀ (ds : List Nat) (rest : List TgResp),
      sendTelegramMessage (ds.map TgResp.retryAfter ++ rest)
        = ((sendTelegramMessage rest).1, ds ++ (sendTelegramMessage rest).2.1,
           (sendTelegramMessage rest).2.2 + ds.length) := by
  intro ds
  induction ds with
  | nil => intro rest; simp
  | cons d t ih =>
    intro rest
    simp only [List.map_cons, List.cons_append, sendTelegramMessage, List.append_eq]
    rw [ih rest]
    simp [Nat.add_assoc]

/-- C9: when the transport send fails with an API error, the notification
path still records the event in price_history (the update runs after the
failed send), its action id is in seen_actions at cycle end, and the event
is dropped by every later cycle: a failed emission is permanently
suppressed. -/
theorem c9_failed_send_suppressed :
    (∀ (sr : Action → Bool) (h : Hist) (a : Action),
      (isDuplicateOrPriceChange h a).1 = false →
      histFind (sendSingleNotification sr h a).1 a.nft_id
        = some { price := a.amount, timestamp := a.created_at, action_id := actionId a,
                 name := a.name, external_number := a.external_number,
                 enhanced_key := a.name ++ "_" ++ a.external_number ++ "_" ++ a.nft_id } ∧
      (sendSingleNotification sr h a).2.1 = [a] ∧
      (sr a = false → (sendSingleNotification sr h a).2.2 = [])) ∧
    (∀ (sr : Action → Bool) (st : MState) (acts : List Action) (a : Action),
      a ∈ (processNewActions sr st acts).dispatched → sr a = false →
      a ∉ (processNewActions sr st acts).delivered ∧
      actionId a ∈ (processNewActions sr st acts).state.seen ∧
      (∀ scripts, a ∉ (runCycles sr (processNewActions sr st acts).state scripts).2.1)) := by
  constructor
  · intro sr h a hdup
    unfold sendSingleNotification
    dsimp only
    rw [hdup]
    simp only [Bool.false_eq_true, if_false]
    exact ⟨histFind_histInsert h a.nft_id _, by simp, fun hsr => by simp [hsr]⟩
  · intro sr st acts a ha hsr
    refine ⟨?_, process_dispatched_seen_after sr st acts a ha, ?_⟩
    · intro hdel
      rw [process_delivered_sr sr st acts a hdel] at hsr
      exact Bool.true_eq_false.mp hsr
    · intro scripts
      exact run_not_dispatched_of_seen sr scripts _ a
        (process_dispatched_seen_after sr st acts a ha)

/-- C9 witness: a failed send in a concrete steady-state cycle leaves the
event undelivered. -/
theorem c9_failed_send_suppressed_witness :
    pairFirst ∉ (processNewActions (fun _ => false) steadyState0 pairActions).delivered :=
  (c9_failed_send_suppressed.2 (fun _ => false) steadyState0 pairActions pairFirst
    (by decide) rfl).1

/-- C10: nothing removes elements from seen_actions: across any run of
cycles the set only grows, the retention purge rewrites only
price_history, and loading and saving the snapshot preserve the stored
members. -/
theorem c10_seen_monotone :
    (∀ (sr : Action → Bool) (st : MState) (scripts : List (List Action)) (x : String),
      x ∈ st.seen → x ∈ (runCycles sr st scripts).1.seen) ∧
    (∀ (now : Int) (st : MState), (cleanupState now st).seen = st.seen) ∧
    (∀ f : SavedState, (loadState (some f)).seen = f.seen) ∧
    (∀ st : MState, (saveState st).seen = st.seen) := by
  refine ⟨?_, fun _ _ => rfl, fun _ => rfl, fun _ => rfl⟩
  intro sr st scripts x hx
  exact run_seen_sub sr scripts st x hx

/-- C10 witness: a previously seen id survives a concrete run. -/
theorem c10_seen_monotone_witness :
    "x" ∈ (runCycles (fun _ => true)
      ⟨["x"], [], true, none, false⟩ [coldStartActions]).1.seen :=
  c10_seen_monotone.1 (fun _ => true) ⟨["x"], [], true, none, false⟩
    [coldStartActions] "x" (by decide)

end NFTMonitor
